import Mathlib

/-!
Shallow embedding of the Blocket-Bot evaluation core (src/evaluator/):
comparable-group statistics (comps.py), valuation (valuation.py),
scoring (scoring.py), the risk-score aggregation (risk.py) and the
crack-status extractor of the phone attribute pack (phone_pack.py),
together with proofs of the specification claims about them.

Prices and scores are modelled as rationals (Python floats carry exact
decimal values in every scenario of the spec); dictionaries keyed by
strings become association lists in insertion order; `None` becomes
`Option.none`.  Python truthiness tests on optional numbers
(`if not asking_price:`) are translated explicitly as "none or zero".
-/

namespace BlocketBot

/-- Normalized condition values (schemas.py, class Condition). -/
inductive Condition where
  | NEW
  | LIKE_NEW
  | GOOD
  | OK
  | DEFECT
  | UNKNOWN
deriving DecidableEq, Repr

/-- The Python enum's string value for each condition. -/
def Condition.value : Condition → String
  | .NEW => "ny"
  | .LIKE_NEW => "som_ny"
  | .GOOD => "bra"
  | .OK => "ok"
  | .DEFECT => "defekt"
  | .UNKNOWN => "unknown"

/-- `Condition(s)` in Python: parse an enum value string, `none` when the
string is not a member (the `ValueError` case). -/
def conditionOfString (s : String) : Option Condition :=
  if s = "ny" then some .NEW
  else if s = "som_ny" then some .LIKE_NEW
  else if s = "bra" then some .GOOD
  else if s = "ok" then some .OK
  else if s = "defekt" then some .DEFECT
  else if s = "unknown" then some .UNKNOWN
  else none

/-- Product family (schemas.py, class ProductFamily). -/
inductive ProductFamily where
  | PHONE
  | LAPTOP
  | TABLET
  | CAMERA
  | UNKNOWN
deriving DecidableEq, Repr

/-- Canonical key for grouping comparable items (schemas.py, CanonicalKey).
`to_tuple` is the identity on the four fields, so the key itself stands
for its tuple. -/
structure CanonicalKey where
  family : ProductFamily
  model_variant : Option String := none
  storage_bucket : Option String := none
  condition_bucket : Option String := none
deriving DecidableEq, Repr

/-- Statistics for a comparison group (schemas.py, CompsStats). -/
structure CompsStats where
  median_price : ℚ
  iqr : ℚ
  q1 : ℚ
  q3 : ℚ
  min_price : ℚ
  max_price : ℚ
  n : ℕ
deriving DecidableEq, Repr

/-- A group of comparable listings (schemas.py, CompsGroup). -/
structure CompsGroup where
  comps_key : CanonicalKey
  listing_ids : List String := []
  stats : Option CompsStats := none
  relaxation_level : ℤ := 0
  is_sufficient : Bool := true
deriving DecidableEq, Repr

/-- The slice of a normalized listing dict that the evaluator reads:
`listing_id` and `price.amount` (absent or non-dict price becomes `none`). -/
structure Listing where
  listing_id : String
  price_amount : Option ℚ := none
deriving DecidableEq, Repr

/-- Extracted attributes for a listing (schemas.py, ExtractedAttributes),
restricted to the typed fields the scoring functions read. -/
structure ExtractedAttributes where
  storage_gb : Option ℤ := none
  condition : Condition := .UNKNOWN
  has_cracks : Option Bool := none
  battery_health : Option ℚ := none
  has_warranty : Option Bool := none
  has_receipt : Option Bool := none
  is_locked : Option Bool := none
  color : Option String := none
  model_variant : Option String := none
deriving DecidableEq, Repr

/-- The preference dict consumed by compute_preference_score: each
recognized key, `none` when the key is absent. -/
structure Preferences where
  condition : Option String := none
  no_cracks : Option Bool := none
  min_battery_health : Option ℚ := none
  has_warranty : Option Bool := none
  has_receipt : Option Bool := none
  unlocked : Option Bool := none
deriving DecidableEq, Repr

/-! ## comps.py -/

/-- The inner `quartile` helper of compute_comps_stats: linear
interpolation on the sorted list at fractional index `(n-1)*q`, clamped
at the upper array bound.  Python's `int(idx)` truncates; for the
nonnegative indexes that occur this is the floor. -/
def quartile (data : List ℚ) (q : ℚ) : ℚ :=
  let idx : ℚ := ((data.length : ℚ) - 1) * q
  let lower : ℕ := (⌊idx⌋).toNat
  let upper : ℕ := lower + 1
  if data.length ≤ upper then data.getD lower 0
  else data.getD lower 0 + (idx - (lower : ℚ)) * (data.getD upper 0 - data.getD lower 0)

/-- compute_comps_stats (comps.py): robust statistics of a price list,
`none` on the empty list. -/
def compute_comps_stats (prices : List ℚ) : Option CompsStats :=
  if prices = [] then none
  else
    let s := List.insertionSort (· ≤ ·) prices
    let n := s.length
    let median : ℚ :=
      if n % 2 = 0 then (s.getD (n / 2 - 1) 0 + s.getD (n / 2) 0) / 2
      else s.getD (n / 2) 0
    let q1 := quartile s (1/4)
    let q3 := quartile s (3/4)
    some { median_price := median
           iqr := q3 - q1
           q1 := q1
           q3 := q3
           min_price := (prices.min?).getD 0
           max_price := (prices.max?).getD 0
           n := n }

/-- relax_comps_key (comps.py): drop key dimensions by level.
Level 0 = full key, 1 drops condition_bucket, 2 additionally drops
storage_bucket, anything else retains only the family. -/
def relax_comps_key (key : CanonicalKey) (level : ℕ) : CanonicalKey :=
  if level = 0 then key
  else if level = 1 then
    { family := key.family
      model_variant := key.model_variant
      storage_bucket := key.storage_bucket
      condition_bucket := none }
  else if level = 2 then
    { family := key.family
      model_variant := key.model_variant
      storage_bucket := none
      condition_bucket := none }
  else
    { family := key.family
      model_variant := none
      storage_bucket := none
      condition_bucket := none }

/-- The price-extraction loop inside build_comps_groups: walk the group's
listings and collect, in order, the positive numeric asking prices and the
ids of the listings that carry them (`if amount and amount > 0`). -/
def extract_priced : List Listing → List ℚ × List String
  | [] => ([], [])
  | l :: rest =>
    let tail := extract_priced rest
    match l.price_amount with
    | some a => if 0 < a then (a :: tail.1, l.listing_id :: tail.2) else tail
    | none => tail

/-- One step of the `defaultdict(list)` grouping: append the listing to the
entry of its key, creating the entry at the end on first sight (Python
dicts keep insertion order). -/
def add_to_groups (groups : List (CanonicalKey × List Listing)) (k : CanonicalKey)
    (l : Listing) : List (CanonicalKey × List Listing) :=
  match groups with
  | [] => [(k, [l])]
  | (k', ls) :: rest =>
    if k' = k then (k', ls ++ [l]) :: rest else (k', ls) :: add_to_groups rest k l

/-- The grouping phase of build_comps_groups: listings whose id has no
canonical key are skipped, the rest are grouped by their key tuple. -/
def group_by_key (listings : List Listing)
    (canonical_keys : List (String × CanonicalKey)) : List (CanonicalKey × List Listing) :=
  listings.foldl
    (fun acc l =>
      match canonical_keys.lookup l.listing_id with
      | none => acc
      | some k => add_to_groups acc k l)
    []

/-- build_comps_groups (comps.py): group listings by raw canonical key,
keep the positively priced members as ids and price data, skip groups
with no priced member, and attach statistics. -/
def build_comps_groups (listings : List Listing)
    (canonical_keys : List (String × CanonicalKey)) (min_sample : ℕ) : List CompsGroup :=
  (group_by_key listings canonical_keys).filterMap
    (fun kg =>
      let priced := extract_priced kg.2
      if priced.1 = [] then none
      else
        some { comps_key := kg.1
               listing_ids := priced.2
               stats := compute_comps_stats priced.1
               is_sufficient := min_sample ≤ priced.1.length
               relaxation_level := 0 })

/-- The group scan inside find_comps_for_listing at one relaxation level:
return the first group whose relaxed key equals the relaxed target key on
all four fields and whose stats exist with `n >= min_sample`; key-matching
groups with too small a sample are skipped, not taken. -/
def find_in_groups (relaxed_key : CanonicalKey) (level : ℕ) (min_sample : ℕ) :
    List CompsGroup → Option (CompsGroup × ℕ)
  | [] => none
  | g :: gs =>
    let group_key := relax_comps_key g.comps_key level
    if group_key.family = relaxed_key.family ∧
        group_key.model_variant = relaxed_key.model_variant ∧
        group_key.storage_bucket = relaxed_key.storage_bucket ∧
        group_key.condition_bucket = relaxed_key.condition_bucket then
      match g.stats with
      | some st =>
        if min_sample ≤ st.n then some (g, level)
        else find_in_groups relaxed_key level min_sample gs
      | none => find_in_groups relaxed_key level min_sample gs
    else find_in_groups relaxed_key level min_sample gs

/-- The outer `for level in range(4)` loop of find_comps_for_listing. -/
def find_comps_levels (canonical_key : CanonicalKey) (all_groups : List CompsGroup)
    (min_sample : ℕ) : List ℕ → Option CompsGroup × ℤ
  | [] => (none, -1)
  | level :: rest =>
    match find_in_groups (relax_comps_key canonical_key level) level min_sample all_groups with
    | some (g, l) => (some g, (l : ℤ))
    | none => find_comps_levels canonical_key all_groups min_sample rest

/-- find_comps_for_listing (comps.py): try exact match, then progressively
relax the key; `(none, -1)` when no level yields a sufficient group. -/
def find_comps_for_listing (canonical_key : CanonicalKey) (all_groups : List CompsGroup)
    (min_sample : ℕ) : Option CompsGroup × ℤ :=
  find_comps_levels canonical_key all_groups min_sample [0, 1, 2, 3]

/-! ## valuation.py -/

/-- compute_expected_price: the comps group's median, `none` without stats. -/
def compute_expected_price (comps : CompsGroup) : Option ℚ :=
  match comps.stats with
  | some st => some st.median_price
  | none => none

/-- compute_deal_delta: `(expected - asking) / expected`, 0 on a
nonpositive expected price. -/
def compute_deal_delta (asking_price expected_price : ℚ) : ℚ :=
  if expected_price ≤ 0 then 0
  else (expected_price - asking_price) / expected_price

/-! ## scoring.py -/

/-- Score based on price vs market (schemas.py, ValueScore); the
`comps_key` string rendering is not modelled. -/
structure ValueScore where
  score : ℚ
  asking_price : Option ℚ := none
  expected_price : Option ℚ := none
  deal_delta : Option ℚ := none
  comps_n : ℕ := 0
deriving DecidableEq, Repr

/-- Score based on preference matching (schemas.py, PreferenceMatchScore);
`soft_scores` is the dict in insertion order. -/
structure PreferenceMatchScore where
  score : ℚ
  hard_filters_passed : Bool := true
  soft_scores : List (String × ℚ) := []
  missing_info_penalties : List String := []
  failed_hard_filters : List String := []
deriving DecidableEq, Repr

/-- Risk assessment result (schemas.py, RiskAssessment), flags and
explanations omitted: scoring only reads the score. -/
structure RiskAssessment where
  score : ℚ
deriving DecidableEq, Repr

/-- compute_value_score (scoring.py).  `if not asking_price or not comps
or not comps.stats` is Python truthiness: a missing or zero asking price,
a missing group, or a group without stats all yield the neutral 50. -/
def compute_value_score (asking_price : Option ℚ) (comps : Option CompsGroup) : ValueScore :=
  match asking_price, comps.bind (fun c => c.stats) with
  | some a, some st =>
    if a = 0 then
      { score := 50, asking_price := asking_price, comps_n := st.n }
    else if st.median_price ≤ 0 then
      { score := 50, asking_price := asking_price, comps_n := 0 }
    else
      let expected := st.median_price
      let deal_delta := compute_deal_delta a expected
      let raw_score := 50 + deal_delta * 100
      { score := max 0 (min 100 raw_score)
        asking_price := asking_price
        expected_price := some expected
        deal_delta := some deal_delta
        comps_n := st.n }
  | _, stOpt =>
    { score := 50
      asking_price := asking_price
      comps_n := (stOpt.map (fun st => st.n)).getD 0 }

/-- The fixed condition order of compute_preference_score, best first. -/
def condition_order : List Condition :=
  [.NEW, .LIKE_NEW, .GOOD, .OK, .DEFECT, .UNKNOWN]

/-- `condition_order.index c` (every condition is in the list). -/
def cond_index (c : Condition) : ℕ :=
  condition_order.indexOf c

/-- compute_preference_score (scoring.py), translated block by block; the
accumulating lists are assembled in the source's append order. -/
def compute_preference_score (attrs : ExtractedAttributes) (prefs : Preferences) :
    PreferenceMatchScore :=
  -- no_cracks: hard filter if set to True
  let crack_fail : Bool := prefs.no_cracks = some true ∧ attrs.has_cracks = some true
  let crack_missing : Bool := prefs.no_cracks = some true ∧ attrs.has_cracks = none
  -- Condition: minimum required (`if min_condition:` plus the swallowed
  -- ValueError on an unrecognized enum value string)
  let cond_check : Bool × Bool :=
    match prefs.condition with
    | none => (false, false)
    | some s =>
      if s = "" then (false, false)
      else
        match conditionOfString s with
        | none => (false, false)
        | some min_cond =>
          if attrs.condition = Condition.UNKNOWN then (false, true)
          else if cond_index min_cond < cond_index attrs.condition then (true, false)
          else (false, false)
  let hard_filters_passed : Bool := !(crack_fail || cond_check.1)
  let failed_hard_filters : List String :=
    (if crack_fail then ["Har sprickor (krav: inga sprickor)"] else []) ++
    (if cond_check.1 then
       ["Skick (" ++ attrs.condition.value ++ ") under minimum (" ++
         (prefs.condition.getD "") ++ ")"]
     else [])
  -- Battery health (`if min_battery:` is truthy: present and nonzero)
  let battery : Option (String × ℚ) × Bool :=
    match prefs.min_battery_health with
    | none => (none, false)
    | some m =>
      if m = 0 then (none, false)
      else
        match attrs.battery_health with
        | some b =>
          if m ≤ b then (some ("battery", 100), false)
          else (some ("battery", max 0 (b / m * 100)), false)
        | none => (some ("battery", 50), true)
  -- Warranty (`if preferences.get("has_warranty"):` is truthy: some true)
  let warranty : Option (String × ℚ) × Bool :=
    match prefs.has_warranty with
    | some true =>
      match attrs.has_warranty with
      | some true => (some ("warranty", 100), false)
      | some false => (some ("warranty", 30), false)
      | none => (some ("warranty", 50), true)
    | _ => (none, false)
  -- Receipt
  let receipt : Option (String × ℚ) :=
    match prefs.has_receipt with
    | some true =>
      match attrs.has_receipt with
      | some true => some ("receipt", 100)
      | some false => some ("receipt", 40)
      | none => some ("receipt", 50)
    | _ => none
  -- Unlocked preference
  let unlocked : Option (String × ℚ) :=
    match prefs.unlocked with
    | some true =>
      match attrs.is_locked with
      | some false => some ("unlocked", 100)
      | some true => some ("unlocked", 20)
      | none => some ("unlocked", 60)
    | _ => none
  let soft_scores : List (String × ℚ) :=
    battery.1.toList ++ warranty.1.toList ++ receipt.toList ++ unlocked.toList
  let missing_penalties : List String :=
    (if crack_missing then ["Sprickstatus okänd"] else []) ++
    (if cond_check.2 then ["Skick ej angivet"] else []) ++
    (if battery.2 then ["Batterihälsa okänd"] else []) ++
    (if warranty.2 then ["Garantistatus okänd"] else [])
  let score : ℚ :=
    if hard_filters_passed = false then 0
    else
      let avg_soft : ℚ :=
        if soft_scores = [] then 80
        else (soft_scores.map (fun p => p.2)).sum / soft_scores.length
      let penalty : ℚ := missing_penalties.length * 5
      max 0 (min 100 (avg_soft - penalty))
  { score := score
    hard_filters_passed := hard_filters_passed
    soft_scores := soft_scores
    missing_info_penalties := missing_penalties
    failed_hard_filters := failed_hard_filters }

/-- compute_final_score (scoring.py) with explicit weights. -/
def compute_final_score (value : ValueScore) (preference : PreferenceMatchScore)
    (risk : RiskAssessment) (value_weight preference_weight risk_weight : ℚ) : ℚ :=
  if preference.hard_filters_passed = false then 0
  else
    let weighted :=
      value_weight * value.score +
      preference_weight * preference.score -
      risk_weight * risk.score
    max 0 (min 100 weighted)

/-- compute_final_score at its default weights 0.5 / 0.35 / 0.15. -/
def compute_final_score_default (value : ValueScore) (preference : PreferenceMatchScore)
    (risk : RiskAssessment) : ℚ :=
  compute_final_score value preference risk (1/2) (35/100) (15/100)

/-! ## risk.py -/

/-- Risk indicator flags (schemas.py, RiskFlag). -/
inductive RiskFlag where
  | UNUSUALLY_LOW_PRICE
  | URGENCY_DETECTED
  | LOW_INFORMATION
  | CONFLICTING_ATTRIBUTES
  | SUSPICIOUS_PAYMENT
  | NO_IMAGES
  | NEW_SELLER
deriving DecidableEq, Repr

/-- The `risk_weights` dict of assess_risk; `risk_weights.get(flag, 10)`
is total because every flag enum member is a key. -/
def risk_weight : RiskFlag → ℚ
  | .UNUSUALLY_LOW_PRICE => 35
  | .URGENCY_DETECTED => 20
  | .SUSPICIOUS_PAYMENT => 40
  | .LOW_INFORMATION => 15
  | .NO_IMAGES => 20
  | .CONFLICTING_ATTRIBUTES => 25
  | .NEW_SELLER => 10

/-- The score aggregation at the end of assess_risk (risk.py):
`score = sum(risk_weights.get(flag, 10) for flag in flags)` capped at 100.
The detection phase that produces `flags` (regex scans and the price
bound) is kept abstract: the claims quantify over the flag list. -/
def risk_score_of_flags (flags : List RiskFlag) : ℚ :=
  min ((flags.map risk_weight).sum) 100

/-! ## phone_pack.py: crack extraction -/

/-- NO_CRACK_PATTERNS (phone_pack.py): negation patterns, tried first. -/
def NO_CRACK_PATTERNS : List String :=
  ["inga?\\s*sprick",
   "utan\\s*sprick",
   "ej\\s*sprick",
   "inte\\s*sprick",
   "no\\s*crack",
   "felfri",
   "perfekt\\s*skärm",
   "fint\\s*glas"]

/-- CRACK_PATTERNS (phone_pack.py): positive crack/damage patterns. -/
def CRACK_PATTERNS : List String :=
  ["sprick",
   "crack",
   "sprucken",
   "spräck",
   "skärm.*skada",
   "skada.*skärm",
   "glas.*trasig",
   "trasig.*glas"]

/-- _extract_cracks (phone_pack.py).  `search pat` stands for
`re.search(pat, text, re.IGNORECASE)` on the fixed input text, returning
the matched span (`match.group(0)`) or `none`; the regex engine itself is
external.  Negation patterns are scanned before positive ones; `none`
when neither list matches. -/
def extract_cracks (search : String → Option String) : Option (Bool × ℚ × String) :=
  match NO_CRACK_PATTERNS.findSome? (fun pat => search pat) with
  | some m => some (false, 9/10, m)
  | none =>
    match CRACK_PATTERNS.findSome? (fun pat => search pat) with
    | some m => some (true, 85/100, m)
    | none => none

/-! ## Spec-side reference definition for the comps search (C5) -/

/-- `group.stats and group.stats.n >= min_sample` as a predicate. -/
def group_sufficient (g : CompsGroup) (min_sample : ℕ) : Bool :=
  match g.stats with
  | some st => min_sample ≤ st.n
  | none => false

/-- The comps search as the spec words it: for relaxation level 0..3 in
order, relax target and group keys identically and return the first group
at that level whose stats satisfy `n >= min_sample`, paired with the
level; `(none, -1)` when all levels are exhausted.  Used only to compare
against `find_comps_for_listing`. -/
def find_comps_spec (canonical_key : CanonicalKey) (all_groups : List CompsGroup)
    (min_sample : ℕ) : Option CompsGroup × ℤ :=
  match [0, 1, 2, 3].findSome?
      (fun level =>
        (all_groups.find?
            (fun g =>
              decide (relax_comps_key g.comps_key level =
                relax_comps_key canonical_key level) &&
              group_sufficient g min_sample)).map
          (fun g => (g, level))) with
  | some gl => (some gl.1, (gl.2 : ℤ))
  | none => (none, -1)

/-! ## Concrete fixtures for witnesses and counterexamples -/

/-- The stats of spec scenario A, prices 8000..12000. -/
def scenarioA_stats : CompsStats :=
  { median_price := 10000, iqr := 2000, q1 := 9000, q3 := 11000,
    min_price := 8000, max_price := 12000, n := 5 }

/-- A comps group carrying the scenario A stats. -/
def scenarioA_group : CompsGroup :=
  { comps_key := { family := ProductFamily.PHONE }
    listing_ids := ["a", "b", "c", "d", "e"]
    stats := compute_comps_stats [8000, 9000, 10000, 11000, 12000] }

/-- A bare phone canonical key. -/
def phone_key : CanonicalKey := { family := ProductFamily.PHONE }

/-- A single listing with a positive price. -/
def priced_listing_a : Listing := { listing_id := "a", price_amount := some 5000 }

/-- The comps group that build_comps_groups forms from `priced_listing_a`
alone (min_sample 5, so not sufficient). -/
def single_priced_group : CompsGroup :=
  { comps_key := phone_key
    listing_ids := ["a"]
    stats := compute_comps_stats [5000]
    is_sufficient := false }

/-! ## Shared evaluation lemmas -/

/-- Scenario A statistics, evaluated. -/
lemma scenarioA_stats_eval :
    compute_comps_stats [8000, 9000, 10000, 11000, 12000] = some scenarioA_stats := by
  have h3 : Int.toNat 3 = 3 := by decide
  have h0 : Int.toNat 0 = 0 := by decide
  norm_num [compute_comps_stats, scenarioA_stats, quartile, List.insertionSort,
    List.orderedInsert, List.getD, List.min?, List.max?, List.foldl, min_def, max_def, h0, h3]
  intro h
  simp at h

/-! ## C6: relaxation of canonical keys -/

/-- C6: relax_comps_key is total over levels 0..3 with the fixed drop
order (0 = full key, 1 drops condition_bucket, 2 additionally drops
storage_bucket, 3 retains only family); relaxing at level 1 is idempotent
and level 3 leaves only the family populated. -/
theorem relax_comps_key_drop_order (k : CanonicalKey) :
    relax_comps_key k 0 = k ∧
    relax_comps_key k 1 =
      { family := k.family, model_variant := k.model_variant,
        storage_bucket := k.storage_bucket, condition_bucket := none } ∧
    relax_comps_key k 2 =
      { family := k.family, model_variant := k.model_variant,
        storage_bucket := none, condition_bucket := none } ∧
    relax_comps_key k 3 =
      { family := k.family, model_variant := none,
        storage_bucket := none, condition_bucket := none } ∧
    relax_comps_key (relax_comps_key k 1) 1 = relax_comps_key k 1 ∧
    (relax_comps_key k 3).family = k.family ∧
    (relax_comps_key k 3).model_variant = none ∧
    (relax_comps_key k 3).storage_bucket = none ∧
    (relax_comps_key k 3).condition_bucket = none := by
  simp [relax_comps_key]

/-! ## C1: hard preference filters zero the scores -/

/-- C1: whenever a hard preference filter fails — `no_cracks=true`
configured with `has_cracks=true` extracted, or the extracted condition
strictly worse than a configured valid minimum on the ordered scale (the
UNKNOWN condition never hard-fails) — the preference score is 0,
`hard_filters_passed` is false, and the final score is exactly 0 whatever
the value and risk components and weights are. -/
theorem hard_filter_fail_zeroes_scores (attrs : ExtractedAttributes) (prefs : Preferences)
    (h : (prefs.no_cracks = some true ∧ attrs.has_cracks = some true) ∨
      (∃ s min_cond, prefs.condition = some s ∧ s ≠ "" ∧
        conditionOfString s = some min_cond ∧
        attrs.condition ≠ Condition.UNKNOWN ∧
        cond_index min_cond < cond_index attrs.condition)) :
    (compute_preference_score attrs prefs).score = 0 ∧
    (compute_preference_score attrs prefs).hard_filters_passed = false ∧
    ∀ (v : ValueScore) (r : RiskAssessment) (vw pw rw : ℚ),
      compute_final_score v (compute_preference_score attrs prefs) r vw pw rw = 0 := by
  have hfail : (compute_preference_score attrs prefs).hard_filters_passed = false := by
    rcases h with ⟨h1, h2⟩ | ⟨s, min_cond, hs, hne, hparse, hunk, hlt⟩
    · simp [compute_preference_score, h1, h2]
    · simp [compute_preference_score, hs, hne, hparse, hunk, hlt]
  have hscore : (compute_preference_score attrs prefs).score = 0 := by
    rcases h with ⟨h1, h2⟩ | ⟨s, min_cond, hs, hne, hparse, hunk, hlt⟩
    · simp [compute_preference_score, h1, h2]
    · simp [compute_preference_score, hs, hne, hparse, hunk, hlt]
  refine ⟨hscore, hfail, ?_⟩
  intro v r vw pw rw
  simp [compute_final_score, hfail]

/-- C1 witness: a listing with cracks against a no-cracks requirement. -/
theorem hard_filter_fail_zeroes_scores_witness :
    (compute_preference_score { has_cracks := some true } { no_cracks := some true }).score = 0 ∧
    (compute_preference_score { has_cracks := some true }
      { no_cracks := some true }).hard_filters_passed = false ∧
    compute_final_score { score := 100 }
      (compute_preference_score { has_cracks := some true } { no_cracks := some true })
      { score := 0 } (1/2) (35/100) (15/100) = 0 := by
  have h := hard_filter_fail_zeroes_scores { has_cracks := some true }
    { no_cracks := some true } (Or.inl ⟨rfl, rfl⟩)
  exact ⟨h.1, h.2.1, h.2.2 { score := 100 } { score := 0 } (1/2) (35/100) (15/100)⟩

/-! ## C9: battery health is a proportional soft score, never a hard filter -/

/-- C9: with `min_battery_health = m > 0` configured and battery health
`b >= 0` extracted, the battery soft score is `min(100, b/m*100)` — 100
when `b >= m`, proportional below — and the battery value never changes
`hard_filters_passed`: the hard-filter outcome equals the one computed
with no battery preference at all. -/
theorem battery_soft_score_proportional (attrs : ExtractedAttributes) (prefs : Preferences)
    (m b : ℚ) (hm : prefs.min_battery_health = some m) (hmpos : 0 < m)
    (hb : attrs.battery_health = some b) (hbnn : 0 ≤ b) :
    (compute_preference_score attrs prefs).soft_scores.lookup "battery" =
      some (min 100 (b / m * 100)) ∧
    (compute_preference_score attrs prefs).hard_filters_passed =
      (compute_preference_score attrs
        { prefs with min_battery_health := none }).hard_filters_passed := by
  constructor
  · rcases le_or_lt m b with hle | hlt
    · have h1 : (1 : ℚ) ≤ b / m := (one_le_div hmpos).mpr hle
      have hmin : min 100 (b / m * 100) = 100 := min_eq_left (by nlinarith)
      simp only [compute_preference_score, hm, hb, hmpos.ne']
      simp [List.lookup, hle, hmin]
    · have h1 : b / m < 1 := (div_lt_one hmpos).mpr hlt
      have h0 : (0 : ℚ) ≤ b / m := div_nonneg hbnn hmpos.le
      have hmax : max 0 (b / m * 100) = b / m * 100 := max_eq_right (by nlinarith)
      have hmin : min 100 (b / m * 100) = b / m * 100 := min_eq_right (by nlinarith)
      simp only [compute_preference_score, hm, hb, hmpos.ne']
      simp [List.lookup, hlt.not_le, hmax, hmin]
  · simp [compute_preference_score, hm, hb, hmpos.ne']

/-- C9 witness: minimum 85 with extracted battery 70 gives soft score
1400/17 ≈ 82.4 and leaves the hard filters passing. -/
theorem battery_soft_score_proportional_witness :
    (compute_preference_score { battery_health := some 70 }
      { min_battery_health := some 85 }).soft_scores.lookup "battery" =
      some (min 100 ((70 : ℚ) / 85 * 100)) ∧
    (compute_preference_score { battery_health := some 70 }
      { min_battery_health := some 85 }).hard_filters_passed =
      (compute_preference_score { battery_health := some 70 }
        { }).hard_filters_passed := by
  exact battery_soft_score_proportional { battery_health := some 70 }
    { min_battery_health := some 85 } 85 70 rfl (by norm_num) rfl (by norm_num)

/-! ## C8: negation patterns are evaluated before positive crack patterns -/

/-- C8: over any regex-search oracle for the fixed input text, when both a
negation pattern and a positive crack pattern match, the extractor returns
`has_cracks = false` (negation wins); it returns `has_cracks = true` only
when no negation pattern matches (and then some positive pattern supplied
the match); it emits no attribute when neither list matches. -/
theorem extract_cracks_negation_first (search : String → Option String) :
    ((∃ p ∈ NO_CRACK_PATTERNS, (search p).isSome) ∧
        (∃ p ∈ CRACK_PATTERNS, (search p).isSome) →
      ∃ m, extract_cracks search = some (false, 9/10, m)) ∧
    (∀ c m, extract_cracks search = some (true, c, m) →
      (∀ p ∈ NO_CRACK_PATTERNS, search p = none) ∧
        ∃ p ∈ CRACK_PATTERNS, search p = some m) ∧
    ((∀ p ∈ NO_CRACK_PATTERNS, search p = none) →
        (∃ p ∈ CRACK_PATTERNS, (search p).isSome) →
      ∃ m, extract_cracks search = some (true, 85/100, m)) ∧
    ((∀ p ∈ NO_CRACK_PATTERNS, search p = none) →
        (∀ p ∈ CRACK_PATTERNS, search p = none) →
      extract_cracks search = none) := by
  refine ⟨?_, ?_, ?_, ?_⟩
  · rintro ⟨⟨p, hp, hsome⟩, -⟩
    have hne : NO_CRACK_PATTERNS.findSome? (fun pat => search pat) ≠ none := by
      intro hnone
      rw [List.findSome?_eq_none_iff] at hnone
      rw [hnone p hp] at hsome
      simp at hsome
    obtain ⟨m, hmeq⟩ := Option.ne_none_iff_exists'.mp hne
    exact ⟨m, by simp [extract_cracks, hmeq]⟩
  · intro c m hres
    unfold extract_cracks at hres
    rcases hno : NO_CRACK_PATTERNS.findSome? (fun pat => search pat) with _ | m'
    · rw [hno] at hres
      rcases hyes : CRACK_PATTERNS.findSome? (fun pat => search pat) with _ | m''
      · rw [hyes] at hres
        simp at hres
      · rw [hyes] at hres
        simp only [Option.some.injEq, Prod.mk.injEq] at hres
        refine ⟨List.findSome?_eq_none_iff.mp hno, ?_⟩
        obtain ⟨p, hp, hps⟩ := List.exists_of_findSome?_eq_some hyes
        exact ⟨p, hp, by rw [hps, hres.2.2]⟩
    · rw [hno] at hres
      simp at hres
  · intro hnone ⟨p, hp, hsome⟩
    have h1 : NO_CRACK_PATTERNS.findSome? (fun pat => search pat) = none :=
      List.findSome?_eq_none_iff.mpr hnone
    have h2 : CRACK_PATTERNS.findSome? (fun pat => search pat) ≠ none := by
      intro hn
      rw [List.findSome?_eq_none_iff] at hn
      rw [hn p hp] at hsome
      simp at hsome
    obtain ⟨m, hmeq⟩ := Option.ne_none_iff_exists'.mp h2
    exact ⟨m, by simp [extract_cracks, h1, hmeq]⟩
  · intro h1 h2
    simp [extract_cracks, List.findSome?_eq_none_iff.mpr h1, List.findSome?_eq_none_iff.mpr h2]

/-- C8 witness: an oracle under which the negation pattern for "no crack"
and the positive pattern "crack" both match; negation wins, and once the
negation match is removed the positive pattern yields true. -/
theorem extract_cracks_negation_first_witness :
    (∃ m, extract_cracks
      (fun pat => if pat = "no\\s*crack" then some "no crack"
        else if pat = "crack" then some "crack" else none) = some (false, 9/10, m)) ∧
    (∃ m, extract_cracks
      (fun pat => if pat = "crack" then some "crack" else none) =
        some (true, 85/100, m)) := by
  constructor
  · exact (extract_cracks_negation_first _).1
      ⟨⟨"no\\s*crack", by simp [NO_CRACK_PATTERNS], by simp⟩,
       ⟨"crack", by simp [CRACK_PATTERNS], by simp⟩⟩
  · exact (extract_cracks_negation_first _).2.2.1
      (by intro p hp; fin_cases hp <;> simp [NO_CRACK_PATTERNS])
      ⟨"crack", by simp [CRACK_PATTERNS], by simp⟩

/-! ## C2: the value score -/

/-- C2 counterexample: a zero asking price is falsy in Python, so with a
fully usable comps group (scenario A stats, median 10000) the code
returns the neutral 50 — not `clamp(50 + deal_delta*100, 0, 100) = 100`
as the claim's "otherwise" branch demands for a present asking price. -/
theorem value_score_zero_asking_counterexample :
    (compute_value_score (some 0) (some scenarioA_group)).score = 50 ∧
    max 0 (min 100 (50 + compute_deal_delta 0 10000 * 100)) = 100 ∧
    (50 : ℚ) ≠ 100 := by
  have hb : (some scenarioA_group).bind (fun c => c.stats) = some scenarioA_stats := by
    simp [scenarioA_group, scenarioA_stats_eval]
  refine ⟨?_, ?_, by norm_num⟩
  · simp [compute_value_score, hb]
  · norm_num [compute_deal_delta]

/-- C2 (amended): compute_value_score returns exactly 50 when the asking
price is missing **or zero**, when no comps group or stats is available,
or when the expected price (the comps median) is not strictly positive;
otherwise it returns `clamp(50 + deal_delta*100, 0, 100)` with
`deal_delta = (expected - asking)/expected`. -/
theorem compute_value_score_characterization (asking : Option ℚ) (comps : Option CompsGroup) :
    ((asking = none ∨ asking = some 0 ∨ comps.bind (fun c => c.stats) = none) →
      (compute_value_score asking comps).score = 50) ∧
    (∀ a st, asking = some a → a ≠ 0 → comps.bind (fun c => c.stats) = some st →
      (st.median_price ≤ 0 → (compute_value_score asking comps).score = 50) ∧
      (0 < st.median_price →
        (compute_value_score asking comps).deal_delta =
          some ((st.median_price - a) / st.median_price) ∧
        (compute_value_score asking comps).score =
          max 0 (min 100 (50 + (st.median_price - a) / st.median_price * 100)))) := by
  constructor
  · rintro (rfl | rfl | hnone)
    · rcases hst : comps.bind (fun c => c.stats) with _ | st <;>
        simp [compute_value_score, hst]
    · rcases hst : comps.bind (fun c => c.stats) with _ | st <;>
        simp [compute_value_score, hst]
    · rcases asking with _ | a <;> simp [compute_value_score, hnone]
  · rintro a st rfl ha hst
    constructor
    · intro hmed
      simp [compute_value_score, hst, ha, hmed]
    · intro hmed
      have hcond := not_le.mpr hmed
      simp [compute_value_score, hst, ha, hcond, compute_deal_delta, hmed.le]

/-- C2 witness: scenario A's group with asking 9000 follows the clamp
formula, and a missing asking price scores neutral 50. -/
theorem compute_value_score_characterization_witness :
    ((compute_value_score (some 9000) (some scenarioA_group)).deal_delta =
      some ((scenarioA_stats.median_price - 9000) / scenarioA_stats.median_price) ∧
     (compute_value_score (some 9000) (some scenarioA_group)).score =
      max 0 (min 100 (50 +
        (scenarioA_stats.median_price - 9000) / scenarioA_stats.median_price * 100))) ∧
    (compute_value_score none none).score = 50 := by
  have hb : (some scenarioA_group).bind (fun c => c.stats) = some scenarioA_stats := by
    simp [scenarioA_group, scenarioA_stats_eval]
  constructor
  · exact ((compute_value_score_characterization (some 9000)
      (some scenarioA_group)).2 9000 scenarioA_stats rfl (by norm_num) hb).2
      (by norm_num [scenarioA_stats])
  · exact (compute_value_score_characterization none none).1 (Or.inl rfl)

/-! ## C4: scenario A, end to end -/

/-- C4: for prices [8000, 9000, 10000, 11000, 12000] the statistics are
median 10000, q1 9000, q3 11000, iqr 2000 (middle element / linear
interpolation at index (n-1)q), and a listing asking 9000 against this
group gets deal_delta = 1/10 and value score 60. -/
theorem scenarioA_end_to_end :
    compute_comps_stats [8000, 9000, 10000, 11000, 12000] = some scenarioA_stats ∧
    scenarioA_stats.median_price = 10000 ∧
    scenarioA_stats.q1 = 9000 ∧
    scenarioA_stats.q3 = 11000 ∧
    scenarioA_stats.iqr = 2000 ∧
    (compute_value_score (some 9000) (some scenarioA_group)).deal_delta = some (1/10) ∧
    (compute_value_score (some 9000) (some scenarioA_group)).score = 60 := by
  have hb : (some scenarioA_group).bind (fun c => c.stats) = some scenarioA_stats := by
    simp [scenarioA_group, scenarioA_stats_eval]
  refine ⟨scenarioA_stats_eval, by norm_num [scenarioA_stats], by norm_num [scenarioA_stats],
    by norm_num [scenarioA_stats], by norm_num [scenarioA_stats], ?_, ?_⟩ <;>
    norm_num [compute_value_score, hb, scenarioA_stats, compute_deal_delta]

/-! ## C10: the final-score combination and the risk subtraction -/

/-- C10: when the hard filters pass, the final score is
`clamp(0.5*value + 0.35*pref - 0.15*risk, 0, 100)`; the risk score of a
flag list is capped at 100 and is 0 on no flags — so a flagless listing
loses nothing — and subtracting it can drive an otherwise positive final
score to 0. -/
theorem final_score_weighted_subtraction (v : ValueScore) (p : PreferenceMatchScore)
    (flags : List RiskFlag) (h : p.hard_filters_passed = true) :
    compute_final_score_default v p { score := risk_score_of_flags flags } =
      max 0 (min 100
        (1/2 * v.score + 35/100 * p.score - 15/100 * risk_score_of_flags flags)) ∧
    risk_score_of_flags [] = 0 ∧
    risk_score_of_flags flags ≤ 100 ∧
    compute_final_score_default v p { score := risk_score_of_flags [] } =
      max 0 (min 100 (1/2 * v.score + 35/100 * p.score)) ∧
    (∃ (v' : ValueScore) (p' : PreferenceMatchScore) (fl : List RiskFlag),
      p'.hard_filters_passed = true ∧
      0 < compute_final_score_default v' p' { score := 0 } ∧
      compute_final_score_default v' p' { score := risk_score_of_flags fl } = 0) := by
  have hnil : risk_score_of_flags [] = 0 := by
    norm_num [risk_score_of_flags]
  refine ⟨?_, hnil, ?_, ?_, ?_⟩
  · simp [compute_final_score_default, compute_final_score, h]
  · exact min_le_right _ _
  · rw [hnil]
    simp [compute_final_score_default, compute_final_score, h]
  · refine ⟨{ score := 10 }, { score := 10, hard_filters_passed := true },
      [.SUSPICIOUS_PAYMENT, .UNUSUALLY_LOW_PRICE, .NO_IMAGES, .LOW_INFORMATION], rfl, ?_, ?_⟩ <;>
      norm_num [compute_final_score_default, compute_final_score, risk_score_of_flags,
        risk_weight, min_def, max_def]

/-- C10 witness: value 50, preference 80 and no flags combine to the
clamped weighted sum with nothing subtracted. -/
theorem final_score_weighted_subtraction_witness :
    compute_final_score_default { score := 50 }
      { score := 80, hard_filters_passed := true } { score := risk_score_of_flags [] } =
      max 0 (min 100 (1/2 * (50 : ℚ) + 35/100 * 80)) ∧
    risk_score_of_flags [] = 0 := by
  have h := final_score_weighted_subtraction { score := 50 }
    { score := 80, hard_filters_passed := true } [] rfl
  exact ⟨h.2.2.2.1, h.2.1⟩

/-! ## C5: the relaxation search -/

/-- Two canonical keys agreeing on all four fields are equal. -/
lemma CanonicalKey.ext_of_fields {a b : CanonicalKey}
    (h1 : a.family = b.family) (h2 : a.model_variant = b.model_variant)
    (h3 : a.storage_bucket = b.storage_bucket)
    (h4 : a.condition_bucket = b.condition_bucket) : a = b := by
  cases a
  cases b
  simp_all

/-- The inner group scan is `List.find?` over the combined key-equality
and sufficiency predicate. -/
lemma find_in_groups_eq (relaxed : CanonicalKey) (level min_sample : ℕ)
    (gs : List CompsGroup) :
    find_in_groups relaxed level min_sample gs =
      (gs.find? (fun g =>
        decide (relax_comps_key g.comps_key level = relaxed) &&
        group_sufficient g min_sample)).map (fun g => (g, level)) := by
  induction gs with
  | nil => rfl
  | cons g gs ih =>
    rw [find_in_groups, List.find?_cons]
    by_cases hk : relax_comps_key g.comps_key level = relaxed
    · have hfields : (relax_comps_key g.comps_key level).family = relaxed.family ∧
          (relax_comps_key g.comps_key level).model_variant = relaxed.model_variant ∧
          (relax_comps_key g.comps_key level).storage_bucket = relaxed.storage_bucket ∧
          (relax_comps_key g.comps_key level).condition_bucket = relaxed.condition_bucket := by
        rw [hk]
        exact ⟨rfl, rfl, rfl, rfl⟩
      rw [if_pos hfields]
      rcases hst : g.stats with _ | st
      · simp [group_sufficient, hk, hst, ih]
      · by_cases hn : min_sample ≤ st.n
        · simp [group_sufficient, hk, hst, hn]
        · simp [group_sufficient, hk, hst, hn, ih]
    · have hfields : ¬((relax_comps_key g.comps_key level).family = relaxed.family ∧
          (relax_comps_key g.comps_key level).model_variant = relaxed.model_variant ∧
          (relax_comps_key g.comps_key level).storage_bucket = relaxed.storage_bucket ∧
          (relax_comps_key g.comps_key level).condition_bucket = relaxed.condition_bucket) := by
        intro hc
        exact hk (CanonicalKey.ext_of_fields hc.1 hc.2.1 hc.2.2.1 hc.2.2.2)
      rw [if_neg hfields]
      simp [hk, ih]

/-- C5: find_comps_for_listing computes exactly the spec-worded search:
relaxation levels 0,1,2,3 in order, both keys relaxed identically,
full-tuple equality, first group at the lowest level with
`n >= min_sample` returned with that level, and `(none, -1)` — not an
error — when all four levels are exhausted. -/
theorem find_comps_matches_spec (canonical_key : CanonicalKey)
    (all_groups : List CompsGroup) (min_sample : ℕ) :
    find_comps_for_listing canonical_key all_groups min_sample =
      find_comps_spec canonical_key all_groups min_sample := by
  have haux : ∀ levels : List ℕ,
      find_comps_levels canonical_key all_groups min_sample levels =
        match levels.findSome?
            (fun level =>
              (all_groups.find?
                  (fun g =>
                    decide (relax_comps_key g.comps_key level =
                      relax_comps_key canonical_key level) &&
                    group_sufficient g min_sample)).map
                (fun g => (g, level))) with
        | some gl => (some gl.1, (gl.2 : ℤ))
        | none => (none, -1) := by
    intro levels
    induction levels with
    | nil => simp [find_comps_levels]
    | cons lvl rest ih =>
      rw [find_comps_levels, find_in_groups_eq, List.findSome?_cons]
      rcases h : all_groups.find?
          (fun g =>
            decide (relax_comps_key g.comps_key lvl =
              relax_comps_key canonical_key lvl) &&
            group_sufficient g min_sample) with _ | g
      · rw [h]
        simp only [Option.map_none']
        exact ih
      · rw [h]
        simp only [Option.map_some']
  rw [find_comps_for_listing, haux]
  rfl

/-! ## C7: group membership and prices -/

/-- Every id collected by the price-extraction loop belongs to a listing
of the walked list that has a positive price. -/
lemma extract_priced_mem (ls : List Listing) :
    ∀ id ∈ (extract_priced ls).2,
      ∃ l ∈ ls, l.listing_id = id ∧ ∃ a, l.price_amount = some a ∧ 0 < a := by
  induction ls with
  | nil => simp [extract_priced]
  | cons l rest ih =>
    intro id hid
    rw [extract_priced] at hid
    rcases hp : l.price_amount with _ | a
    · simp only [hp] at hid
      obtain ⟨l', hl', h⟩ := ih id hid
      exact ⟨l', List.mem_cons_of_mem _ hl', h⟩
    · simp only [hp] at hid
      by_cases ha : 0 < a
      · rw [if_pos ha] at hid
        rcases List.mem_cons.mp hid with rfl | hid'
        · exact ⟨l, List.mem_cons_self _ _, rfl, a, hp, ha⟩
        · obtain ⟨l', hl', h⟩ := ih id hid'
          exact ⟨l', List.mem_cons_of_mem _ hl', h⟩
      · rw [if_neg ha] at hid
        obtain ⟨l', hl', h⟩ := ih id hid
        exact ⟨l', List.mem_cons_of_mem _ hl', h⟩

/-- The extraction loop collects one id per collected price. -/
lemma extract_priced_length (ls : List Listing) :
    (extract_priced ls).1.length = (extract_priced ls).2.length := by
  induction ls with
  | nil => rfl
  | cons l rest ih =>
    rw [extract_priced]
    rcases l.price_amount with _ | a
    · exact ih
    · by_cases ha : 0 < a
      · simp [ha, ih]
      · simp [ha, ih]

/-- compute_comps_stats on a non-empty list yields stats whose sample
size is the list length. -/
lemma compute_comps_stats_some {prices : List ℚ} (h : prices ≠ []) :
    ∃ st, compute_comps_stats prices = some st ∧ st.n = prices.length := by
  rw [compute_comps_stats, if_neg h]
  exact ⟨_, rfl, List.length_insertionSort _ _⟩

/-- A member of any group after an add_to_groups step was in the
accumulator or is the added listing. -/
lemma add_to_groups_mem {groups : List (CanonicalKey × List Listing)}
    {k : CanonicalKey} {l : Listing} {kg : CanonicalKey × List Listing}
    (h : kg ∈ add_to_groups groups k l) :
    ∀ x ∈ kg.2, (∃ kg' ∈ groups, x ∈ kg'.2) ∨ x = l := by
  induction groups with
  | nil =>
    rw [add_to_groups] at h
    intro x hx
    rcases List.mem_singleton.mp h with rfl
    rcases List.mem_singleton.mp hx with rfl
    exact Or.inr rfl
  | cons g rest ih =>
    rw [add_to_groups] at h
    intro x hx
    by_cases hk : g.1 = k
    · rw [if_pos hk] at h
      rcases List.mem_cons.mp h with rfl | hmem
      · rcases List.mem_append.mp hx with hx' | hx'
        · exact Or.inl ⟨g, List.mem_cons_self _ _, hx'⟩
        · exact Or.inr (List.mem_singleton.mp hx')
      · exact Or.inl ⟨kg, List.mem_cons_of_mem _ hmem, hx⟩
    · rw [if_neg hk] at h
      rcases List.mem_cons.mp h with heq | hmem
      · refine Or.inl ⟨g, List.mem_cons_self _ _, ?_⟩
        rw [heq] at hx
        exact hx
      · rcases ih hmem x hx with ⟨kg', hkg', hx'⟩ | hx'
        · exact Or.inl ⟨kg', List.mem_cons_of_mem _ hkg', hx'⟩
        · exact Or.inr hx'

/-- Foldl invariant for the grouping phase: every group member comes from
the accumulator or from the listings walked so far. -/
lemma group_fold_mem (canonical_keys : List (String × CanonicalKey)) :
    ∀ (listings : List Listing) (acc : List (CanonicalKey × List Listing)),
      ∀ kg ∈ listings.foldl
        (fun acc' l =>
          match canonical_keys.lookup l.listing_id with
          | none => acc'
          | some k => add_to_groups acc' k l) acc,
      ∀ x ∈ kg.2, (∃ kg' ∈ acc, x ∈ kg'.2) ∨ x ∈ listings := by
  intro listings
  induction listings with
  | nil =>
    intro acc kg hkg x hx
    exact Or.inl ⟨kg, hkg, hx⟩
  | cons l rest ih =>
    intro acc kg hkg x hx
    rw [List.foldl_cons] at hkg
    rcases ih _ kg hkg x hx with ⟨kg', hkg', hx'⟩ | hx'
    · rcases hlk : canonical_keys.lookup l.listing_id with _ | k
      · rw [hlk] at hkg'
        exact Or.inl ⟨kg', hkg', hx'⟩
      · rw [hlk] at hkg'
        rcases add_to_groups_mem hkg' x hx' with ⟨kg'', hkg'', hx''⟩ | rfl
        · exact Or.inl ⟨kg'', hkg'', hx''⟩
        · exact Or.inr (List.mem_cons_self _ _)
    · exact Or.inr (List.mem_cons_of_mem _ hx')

/-- C7 counterexample: a single listing with no price and a canonical key
produces **no** comps group at all — contradicting the claim that such a
listing would still be counted as a member of a surviving group. -/
theorem build_comps_groups_unpriced_counterexample :
    build_comps_groups [{ listing_id := "a", price_amount := none }]
      [("a", phone_key)] 5 = [] := by
  simp [build_comps_groups, group_by_key, add_to_groups, extract_priced,
    List.lookup, List.foldl, List.filterMap]

/-- C7 (amended): in every group produced by build_comps_groups, each
member listing id belongs to an input listing with a strictly positive
price (unpriced listings are dropped from membership, not only from the
statistics); the group's stats count exactly its members, and a group
whose members all lack a positive price is omitted entirely (every
emitted group has at least one priced member). -/
theorem build_comps_groups_priced_members (listings : List Listing)
    (canonical_keys : List (String × CanonicalKey)) (min_sample : ℕ)
    (g : CompsGroup) (hg : g ∈ build_comps_groups listings canonical_keys min_sample) :
    (∃ st, g.stats = some st ∧ st.n = g.listing_ids.length ∧ 1 ≤ st.n) ∧
    ∀ id ∈ g.listing_ids,
      ∃ l ∈ listings, l.listing_id = id ∧ ∃ a, l.price_amount = some a ∧ 0 < a := by
  obtain ⟨kg, hkg, hf⟩ := List.mem_filterMap.mp hg
  by_cases hp : (extract_priced kg.2).1 = []
  · rw [if_pos hp] at hf
    exact absurd hf (by simp)
  · rw [if_neg hp] at hf
    obtain ⟨st, hst, hn⟩ := compute_comps_stats_some hp
    have hids : g.listing_ids = (extract_priced kg.2).2 := by
      rw [← Option.some_inj.mp hf]
    have hstats : g.stats = compute_comps_stats (extract_priced kg.2).1 := by
      rw [← Option.some_inj.mp hf]
    constructor
    · refine ⟨st, by rw [hstats, hst], ?_, ?_⟩
      · rw [hn, hids, extract_priced_length]
      · rw [hn]
        exact List.length_pos.mpr hp
    · intro id hid
      rw [hids] at hid
      obtain ⟨l, hl, hlid, a, hpa, hapos⟩ := extract_priced_mem kg.2 id hid
      have hmem : l ∈ listings := by
        rcases group_fold_mem canonical_keys listings [] kg hkg l hl with ⟨kg', hkg', _⟩ | h'
        · exact absurd hkg' (List.not_mem_nil kg')
        · exact h'
      exact ⟨l, hmem, hlid, a, hpa, hapos⟩

/-- C7 amended-claim witness: one priced listing forms a group whose sole
member is that listing, with n = 1. -/
theorem build_comps_groups_priced_members_witness :
    (∃ st, single_priced_group.stats = some st ∧
      st.n = single_priced_group.listing_ids.length ∧ 1 ≤ st.n) ∧
    ∀ id ∈ single_priced_group.listing_ids,
      ∃ l ∈ [priced_listing_a],
        l.listing_id = id ∧ ∃ a, l.price_amount = some a ∧ 0 < a := by
  have hmem : single_priced_group ∈
      build_comps_groups [priced_listing_a] [("a", phone_key)] 5 := by
    norm_num [build_comps_groups, group_by_key, add_to_groups, extract_priced,
      List.lookup, List.foldl, List.filterMap, single_priced_group, priced_listing_a]
  exact build_comps_groups_priced_members
    [priced_listing_a] [("a", phone_key)] 5 _ hmem

/-! ## C3: ordering of the comps statistics -/

/-- Indexing a sorted list is monotone. -/
lemma sorted_getD_mono {s : List ℚ} (hs : List.Sorted (· ≤ ·) s) {i j : ℕ}
    (hij : i ≤ j) (hj : j < s.length) : s.getD i 0 ≤ s.getD j 0 := by
  have hi : i < s.length := lt_of_le_of_lt hij hj
  rw [List.getD_eq_getElem _ _ hi, List.getD_eq_getElem _ _ hj]
  have := hs.rel_get_of_le (a := ⟨i, hi⟩) (b := ⟨j, hj⟩) (Fin.mk_le_mk.mpr hij)
  simpa using this

/-- Bounds for the truncated interpolation index of `quartile`:
`lower ≤ idx < lower + 1` and `lower < n`. -/
lemma quartile_index_facts {n : ℕ} (hn : 1 ≤ n) {q : ℚ} (h0 : 0 ≤ q) (h1 : q ≤ 1) :
    (((⌊((n : ℚ) - 1) * q⌋).toNat : ℚ) ≤ ((n : ℚ) - 1) * q ∧
      ((n : ℚ) - 1) * q < ((⌊((n : ℚ) - 1) * q⌋).toNat : ℚ) + 1) ∧
    (⌊((n : ℚ) - 1) * q⌋).toNat < n := by
  have hn1 : (1 : ℚ) ≤ (n : ℚ) := by exact_mod_cast hn
  have hN : (0 : ℚ) ≤ (n : ℚ) - 1 := by linarith
  have hi0 : 0 ≤ ((n : ℚ) - 1) * q := mul_nonneg hN h0
  have hiN : ((n : ℚ) - 1) * q ≤ (n : ℚ) - 1 := by nlinarith
  have hfl0 : 0 ≤ ⌊((n : ℚ) - 1) * q⌋ := Int.floor_nonneg.mpr hi0
  have hcast : ((⌊((n : ℚ) - 1) * q⌋.toNat : ℤ) : ℚ) = ((⌊((n : ℚ) - 1) * q⌋ : ℤ) : ℚ) := by
    exact_mod_cast congrArg Int.cast (Int.toNat_of_nonneg hfl0)
  have hlow : ((⌊((n : ℚ) - 1) * q⌋).toNat : ℚ) ≤ ((n : ℚ) - 1) * q := by
    calc ((⌊((n : ℚ) - 1) * q⌋).toNat : ℚ) = ((⌊((n : ℚ) - 1) * q⌋ : ℤ) : ℚ) := by
          exact_mod_cast hcast
      _ ≤ ((n : ℚ) - 1) * q := Int.floor_le _
  have hup : ((n : ℚ) - 1) * q < ((⌊((n : ℚ) - 1) * q⌋).toNat : ℚ) + 1 := by
    calc ((n : ℚ) - 1) * q < ((⌊((n : ℚ) - 1) * q⌋ : ℤ) : ℚ) + 1 := Int.lt_floor_add_one _
      _ = ((⌊((n : ℚ) - 1) * q⌋).toNat : ℚ) + 1 := by
          rw [← hcast]
          norm_cast
  refine ⟨⟨hlow, hup⟩, ?_⟩
  have : ((⌊((n : ℚ) - 1) * q⌋).toNat : ℚ) < (n : ℚ) := by linarith
  exact_mod_cast this

/-- The interpolation of `quartile` is monotone in the fraction. -/
lemma quartile_mono {s : List ℚ} (hs : List.Sorted (· ≤ ·) s) (hn : 1 ≤ s.length)
    {q q' : ℚ} (h0 : 0 ≤ q) (hqq : q ≤ q') (h1 : q' ≤ 1) :
    quartile s q ≤ quartile s q' := by
  have h0' : 0 ≤ q' := le_trans h0 hqq
  have h1q : q ≤ 1 := le_trans hqq h1
  obtain ⟨⟨hl1, hl2⟩, hl3⟩ := quartile_index_facts hn h0 h1q
  obtain ⟨⟨hr1, hr2⟩, hr3⟩ := quartile_index_facts hn h0' h1
  have hn1 : (1 : ℚ) ≤ (s.length : ℚ) := by exact_mod_cast hn
  have hN : (0 : ℚ) ≤ (s.length : ℚ) - 1 := by linarith
  have hii' : ((s.length : ℚ) - 1) * q ≤ ((s.length : ℚ) - 1) * q' :=
    mul_le_mul_of_nonneg_left hqq hN
  have hll' : (⌊((s.length : ℚ) - 1) * q⌋).toNat ≤ (⌊((s.length : ℚ) - 1) * q'⌋).toNat :=
    Int.toNat_le_toNat (Int.floor_le_floor hii')
  simp only [quartile]
  set l : ℕ := (⌊((s.length : ℚ) - 1) * q⌋).toNat with hl_def
  set l' : ℕ := (⌊((s.length : ℚ) - 1) * q'⌋).toNat with hl'_def
  by_cases hA : s.length ≤ l' + 1
  · rw [if_pos hA]
    by_cases hB : s.length ≤ l + 1
    · rw [if_pos hB]
      exact sorted_getD_mono hs hll' hr3
    · rw [if_neg hB]
      push_neg at hB
      have hadj : s.getD l 0 ≤ s.getD (l + 1) 0 := sorted_getD_mono hs (Nat.le_succ l) hB
      have hl1l' : l + 1 ≤ l' := by omega
      have hup : s.getD (l + 1) 0 ≤ s.getD l' 0 := sorted_getD_mono hs hl1l' hr3
      nlinarith [hadj, hup, hl1, hl2]
  · rw [if_neg hA]
    push_neg at hA
    have hB : ¬s.length ≤ l + 1 := by omega
    rw [if_neg hB]
    push_neg at hB
    have hadj : s.getD l 0 ≤ s.getD (l + 1) 0 := sorted_getD_mono hs (Nat.le_succ l) hB
    have hadj' : s.getD l' 0 ≤ s.getD (l' + 1) 0 := sorted_getD_mono hs (Nat.le_succ l') hA
    rcases eq_or_lt_of_le hll' with heq | hlt
    · rw [← heq]
      nlinarith [hadj, hii', hl1, hl2]
    · have hstep : s.getD (l + 1) 0 ≤ s.getD l' 0 :=
        sorted_getD_mono hs (Nat.succ_le_of_lt hlt) (by omega)
      nlinarith [hadj, hadj', hstep, hl1, hl2, hr1, hr2]

/-- The median formula of compute_comps_stats agrees with `quartile` at
the fraction 1/2: middle element for odd length, mean of the two middle
elements for even length. -/
lemma median_eq_quartile_half {s : List ℚ} (hn : 1 ≤ s.length) :
    (if s.length % 2 = 0 then (s.getD (s.length / 2 - 1) 0 + s.getD (s.length / 2) 0) / 2
     else s.getD (s.length / 2) 0) = quartile s (1/2) := by
  rcases Nat.even_or_odd s.length with ⟨k, hk⟩ | ⟨k, hk⟩
  · -- even length: s.length = k + k with k ≥ 1
    have hk1 : 1 ≤ k := by omega
    have hfloor : ⌊((s.length : ℚ) - 1) * (1/2)⌋ = (k : ℤ) - 1 := by
      rw [hk]
      rw [Int.floor_eq_iff]
      constructor
      · push_cast
        linarith
      · push_cast
        linarith
    have htoNat : (⌊((s.length : ℚ) - 1) * (1/2)⌋).toNat = k - 1 := by
      rw [hfloor]
      omega
    simp only [quartile]
    rw [htoNat]
    have hcond : ¬s.length ≤ (k - 1) + 1 := by omega
    rw [if_neg hcond, if_pos (by omega : s.length % 2 = 0)]
    have hdiv : s.length / 2 = k := by omega
    rw [hdiv]
    have hsub : k - 1 + 1 = k := by omega
    have hcast : ((k - 1 : ℕ) : ℚ) = (k : ℚ) - 1 := by
      have : ((k - 1 : ℕ) : ℤ) = (k : ℤ) - 1 := by omega
      exact_mod_cast this
    rw [hsub, hk, hcast]
    push_cast
    ring
  · -- odd length: s.length = 2k + 1
    have hfloor : ⌊((s.length : ℚ) - 1) * (1/2)⌋ = (k : ℤ) := by
      rw [hk]
      have : (((2 * k + 1 : ℕ) : ℚ) - 1) * (1/2) = (k : ℚ) := by
        push_cast
        ring
      rw [this]
      exact_mod_cast Int.floor_natCast k
    have htoNat : (⌊((s.length : ℚ) - 1) * (1/2)⌋).toNat = k := by
      rw [hfloor]
      omega
    simp only [quartile]
    rw [htoNat]
    rw [if_neg (by omega : ¬s.length % 2 = 0)]
    have hdiv : s.length / 2 = k := by omega
    rw [hdiv]
    by_cases hcond : s.length ≤ k + 1
    · rw [if_pos hcond]
    · rw [if_neg hcond]
      have hzero : ((s.length : ℚ) - 1) * (1/2) - (k : ℚ) = 0 := by
        rw [hk]
        push_cast
        ring
      rw [hzero]
      ring

/-- C3: for every non-empty price list, compute_comps_stats yields
statistics with q1 ≤ median ≤ q3 and iqr = q3 − q1 ≥ 0. -/
theorem comps_stats_quartile_order (prices : List ℚ) (hne : prices ≠ [])
    (st : CompsStats) (hst : compute_comps_stats prices = some st) :
    st.q1 ≤ st.median_price ∧ st.median_price ≤ st.q3 ∧
    st.iqr = st.q3 - st.q1 ∧ 0 ≤ st.iqr := by
  rw [compute_comps_stats, if_neg hne] at hst
  have hsorted : List.Sorted (· ≤ ·) (List.insertionSort (· ≤ ·) prices) :=
    List.sorted_insertionSort _ _
  have hlen : 1 ≤ (List.insertionSort (· ≤ ·) prices).length := by
    rw [List.length_insertionSort]
    exact List.length_pos.mpr hne
  obtain rfl := Option.some_inj.mp hst
  dsimp only
  refine ⟨?_, ?_, rfl, ?_⟩
  · rw [median_eq_quartile_half hlen]
    exact quartile_mono hsorted hlen (by norm_num) (by norm_num) (by norm_num)
  · rw [median_eq_quartile_half hlen]
    exact quartile_mono hsorted hlen (by norm_num) (by norm_num) (by norm_num)
  · have := @quartile_mono (List.insertionSort (· ≤ ·) prices) hsorted hlen
      (1/4) (3/4) (by norm_num) (by norm_num) (by norm_num)
    linarith

/-- C3 witness: the scenario A statistics are ordered. -/
theorem comps_stats_quartile_order_witness :
    scenarioA_stats.q1 ≤ scenarioA_stats.median_price ∧
    scenarioA_stats.median_price ≤ scenarioA_stats.q3 ∧
    scenarioA_stats.iqr = scenarioA_stats.q3 - scenarioA_stats.q1 ∧
    0 ≤ scenarioA_stats.iqr :=
  comps_stats_quartile_order [8000, 9000, 10000, 11000, 12000] (by simp)
    scenarioA_stats scenarioA_stats_eval

end BlocketBot
